import Mathlib

/-!
Shallow embedding of the descript electron build pipeline
(`descript/build-electron.py` and `descript/bootstrap-electron.py`).

Modelling conventions:
* Filesystem paths are modelled by their `pathlib` component lists
  (`pathlib.Path(p).parts`), e.g. `/a/b/c` is `["/", "a", "b", "c"]`.
* External subprocess invocations are modelled by oracles (functions passed
  as parameters) together with explicit command traces, so that temporal
  claims ("X is invoked once, before Y") become statements about traces.
* Python `None` returns are modelled as `Option.none`; a raised, uncaught
  exception is modelled with `Except.error`.
* String text in the scripts is ASCII; Python `str.lower` is modelled on
  ASCII letters and Python string `<` as code-point lexicographic order.
-/

namespace BuildElectron

/-- Lowercase one ASCII letter, as Python `str.lower` acts on the ASCII
path text handled by the scripts. -/
def asciiLower (c : Char) : Char :=
  if 'A' ≤ c ∧ c ≤ 'Z' then Char.ofNat (c.toNat + 32) else c

/-- Python `str.lower` on ASCII strings. -/
def lowerString (s : String) : String :=
  ⟨s.data.map asciiLower⟩

/-- Code-point lexicographic strict order on character lists: Python's
string `<`, used through `sorted(..., key=lambda s: str(s).lower())`. -/
def charListLt : List Char → List Char → Bool
  | [], [] => false
  | [], _ :: _ => true
  | _ :: _, [] => false
  | a :: as, b :: bs =>
    if a.val < b.val then true
    else if b.val < a.val then false
    else charListLt as bs

/-- Python string `<` on the embedded strings. -/
def strLt (a b : String) : Bool :=
  charListLt a.data b.data

/-- Final component of a path given by its parts (`pathlib` `.name`);
the root path `["/"]` and the empty path have name `""`. -/
def pathName (parts : List String) : String :=
  match parts.getLast? with
  | none => ""
  | some s => if s = "/" then "" else s

/-- Index of the last `.` in a character list, if any. -/
def lastDotIdx (cs : List Char) : Option Nat :=
  ((List.range cs.length).filter (fun i => cs.get? i = some '.')).getLast?

/-- CPython `pathlib` stem rule: with `i = name.rfind('.')`, the stem is
`name[:i]` when `0 < i < len(name) - 1`, otherwise `name` itself. -/
def stemOfName (name : String) : String :=
  match lastDotIdx name.data with
  | some i => if 0 < i ∧ i + 1 < name.data.length then ⟨name.data.take i⟩ else name
  | none => name

/-- `pathlib.Path(p).stem`: the stem of the final component. -/
def pathStem (parts : List String) : String :=
  stemOfName (pathName parts)

/-- `os.path.join(*parts)` for `pathlib` part lists (POSIX). -/
def joinParts (parts : List String) : String :=
  match parts with
  | "/" :: rest => "/" ++ String.intercalate "/" rest
  | ps => String.intercalate "/" ps

/-- `known_bundles` of `symbolNameFromFile` (build-electron.py line 308). -/
def knownBundles : List String :=
  ["app", "framework", "bundle"]

/-- `symbolNameFromFile` (build-electron.py lines 298-317): start from the
basename; for each bundle type in `knownBundles`, in order, look for a path
segment equal to `<stem>.<type>` (`tuple.index`, `ValueError` caught and
the next type tried); the first hit replaces the result; append `.dSYM`. -/
def symbolNameFromFile (parts : List String) : String :=
  let basename := pathName parts
  let stm := stemOfName basename
  let found := knownBundles.findSome? (fun bundle_type =>
    let bundleName := stm ++ "." ++ bundle_type
    if bundleName ∈ parts then some bundleName else none)
  (found.getD basename) ++ ".dSYM"

/-- Python `tuple.index`: the index of the first occurrence, `none` in
place of the raised `ValueError` when the element is absent. -/
def tupleIndex (target : String) : List String → Option Nat
  | [] => none
  | s :: rest =>
    if s = target then some 0
    else (tupleIndex target rest).map (· + 1)

/-- Bundle-root computation of `packageSymbols` (build-electron.py lines
335-343): `exe_path_parts.index(f'{exe_ref.stem}.app')` takes the FIRST
part equal to `<exeStem>.app` and the path is truncated just after it;
`tuple.index` raising `ValueError` is re-raised immediately (modelled as
`Except.error ()`). -/
def bundleRootFromExe (parts : List String) : Except Unit (List String) :=
  let target := pathStem parts ++ ".app"
  match tupleIndex target parts with
  | some i => Except.ok (parts.take (i + 1))
  | none => Except.error ()

/-- Follows the spec wording of claim C1 only, for comparison with
`bundleRootFromExe`: ascend the executable's path components to the
NEAREST ancestor directory (deepest strict ancestor, hence the last
matching index below the final component) whose name is `<exeStem>.app`;
no match is the fatal `NoEnclosingBundle`. -/
def specNearestEnclosingAppRoot (parts : List String) : Except Unit (List String) :=
  let target := pathStem parts ++ ".app"
  match ((List.range (parts.length - 1)).filter
      (fun i => parts.get? i = some target)).getLast? with
  | some i => Except.ok (parts.take (i + 1))
  | none => Except.error ()

/-- Output of `shasum -a 256 <dirpath>/<name>`, stripped: the 64-hex digest
(given by the hash oracle `h` on the absolute file path), two spaces, then
the absolute file path (build-electron.py lines 255-257). -/
def shasumOutput (h : String → String) (dirpath name : String) : String :=
  h (dirpath ++ "/" ++ name) ++ "  " ++ (dirpath ++ "/" ++ name)

/-- Fuel-indexed engine for Python `str.replace`: replace non-overlapping
occurrences of `pat` left to right. Fuel `≥ length + 1` is always enough
because every step consumes at least one character when `pat ≠ []`. -/
def replaceFuel : Nat → List Char → List Char → List Char → List Char
  | 0, _, _, s => s
  | _ + 1, _, _, [] => []
  | n + 1, pat, rep, c :: cs =>
    if pat.isPrefixOf (c :: cs) then
      rep ++ replaceFuel n pat rep ((c :: cs).drop pat.length)
    else
      c :: replaceFuel n pat rep cs

/-- Python `str.replace(pat, rep)` for a non-empty pattern (the scripts only
replace the non-empty `os.path.join(dirpath, '')`). -/
def pyReplace (s pat rep : String) : String :=
  if pat.data = [] then s
  else ⟨replaceFuel (s.data.length + 1) pat.data rep.data s.data⟩

/-- One manifest line of `generateChecksum` (build-electron.py line 262):
the `shasum` output with the absolute directory plus trailing separator
(`os.path.join(dirpath, '')`) replaced by the `*` marker. -/
def checksumLine (h : String → String) (dirpath name : String) : String :=
  pyReplace (shasumOutput h dirpath name) (dirpath ++ "/") "*"

/-- Left-biased choice on options, used to state fold/lookup lemmas. -/
def optOr {α : Type} (a b : Option α) : Option α :=
  match a with
  | some x => some x
  | none => b

/-- `generateChecksum` (build-electron.py lines 245-270): walk the output
folder (`files` lists the `(dirpath, filename)` pairs in visit order),
accumulate the manifest lines into a set (modelled as the deduplicated
list; iteration order of a Python set is unspecified and no claim depends
on it), then write one line per set element to `SHAMSUM256.txt`. -/
def generateChecksum (h : String → String) (files : List (String × String)) : List String :=
  (files.map (fun f => checksumLine h f.1 f.2)).dedup

/-- `getProcessorArch` (build-electron.py lines 40-48), with the
`platform.machine()` answer passed as `machine`. -/
def getProcessorArch (machine : String) : String :=
  if machine = "x86_64" then "x64" else machine

/-- Distribution artifact name (build-electron.py line 288):
`f'electron-v{readVersion()}-{sys.platform}-{getProcessorArch()}.zip'`. -/
def distZipName (version plat machine : String) : String :=
  "electron-v" ++ version ++ "-" ++ plat ++ "-" ++ getProcessorArch machine ++ ".zip"

/-- Base name handed to `shutil.make_archive` (build-electron.py line 374):
`f'electron-v{readVersion()}-{sys.platform}-{getProcessorArch()}-symbols'`. -/
def symbolsBaseName (version plat machine : String) : String :=
  "electron-v" ++ version ++ "-" ++ plat ++ "-" ++ getProcessorArch machine ++ "-symbols"

/-- `shutil.make_archive(base, fmt)` file name: `base` plus `.` plus the
format's extension. -/
def makeArchiveName (base fmt : String) : String :=
  base ++ "." ++ fmt

/-- Symbols artifact name actually produced (build-electron.py line 376). -/
def symbolsZipName (version plat machine : String) : String :=
  makeArchiveName (symbolsBaseName version plat machine) "zip"

/-- Log file name (build-electron.py line 393). -/
def logFileName (version plat machine : String) : String :=
  "electron-v" ++ version ++ "-" ++ plat ++ "-" ++ getProcessorArch machine ++ "-log.txt"

/-- Sort key of the symbol loop (build-electron.py line 365):
`lambda s: str(s).lower()`. -/
def sortKey (parts : List String) : String :=
  lowerString (joinParts parts)

/-- Stable insertion of one path into an already key-sorted list: a path is
placed after every element whose key is not strictly greater. -/
def insertByKey (x : List String) : List (List String) → List (List String)
  | [] => [x]
  | y :: ys =>
    if strLt (sortKey x) (sortKey y) then x :: y :: ys
    else y :: insertByKey x ys

/-- Python `sorted(pe_files, key=lambda s: str(s).lower())`: the stable
sort by `sortKey` (a stable sort's output is determined by the input order
and the key order, so any stable algorithm embeds `sorted` faithfully). -/
def sortedByLowerPath (l : List (List String)) : List (List String) :=
  l.foldl (fun acc x => insertByKey x acc) []

/-- Effect of one `dsymutil <pe> -o <staging>/<name>` run on the staging
directory, modelled as a name-keyed association list: writing to an
existing output name overwrites it, otherwise a new entry appears. -/
def writeSymbol (st : List (String × List String)) (name : String) (pe : List String) :
    List (String × List String) :=
  if st.any (fun p => p.1 = name) then
    st.map (fun p => if p.1 = name then (name, pe) else p)
  else st ++ [(name, pe)]

/-- Symbol-generation loop of `packageSymbols` (build-electron.py lines
363-371): iterate the discovered Mach-O files in case-insensitive sorted
order and extract each into `symbol_temp/<symbolNameFromFile pe>`, starting
from the freshly created (empty) staging directory. -/
def stageSymbols (pes : List (List String)) : List (String × List String) :=
  (sortedByLowerPath pes).foldl
    (fun st pe => writeSymbol st (symbolNameFromFile pe) pe) []

/-- `getElectronBuildToolsPath(log_file, False)` (build-electron.py lines
74-104 with `throw_if_not_found = False`): one `which e` probe (`world idx`
is the stripped output of the `idx`-th probe, `none` for a nonzero exit);
on failure no install happens, nothing is raised and `''` is returned.
The second component counts install attempts (always `0` here). -/
def getElectronBuildToolsPathNT (world : Nat → Option String) (idx : Nat) : String × Nat :=
  match world idx with
  | some p => (p, 0)
  | none => ("", 0)

/-- `getElectronBuildToolsPath(log_file)` (build-electron.py lines 74-104,
default `throw_if_not_found = True`), the recursion unrolled through the
flag: probe `which e`; on failure install the build tools once and re-probe
via the `throw_if_not_found = False` call; if the result is still empty,
re-raise the ORIGINAL `CalledProcessError` (`Except.error 0`, the payload
naming the probe invocation whose error is raised). The second component
counts install attempts. The install itself is assumed to succeed (its own
`check=True` failure is outside this claim's scope). -/
def getElectronBuildToolsPath (world : Nat → Option String) : Except Nat String × Nat :=
  match world 0 with
  | some p => (Except.ok p, 0)
  | none =>
    let r := getElectronBuildToolsPathNT world 1
    if r.1.length = 0 then (Except.error 0, r.2 + 1)
    else (Except.ok r.1, r.2 + 1)

/-- Pipeline stages of `main` (build-electron.py lines 383-429), in program
order. -/
inductive Stage where
  | buildTools
  | buildConfig
  | sync
  | redirectOrigin
  | build
  | verify
  | copyDist
  | packageSymbols
  | logZip
  | checksum
deriving DecidableEq, Repr

/-- The order in which `main` runs its stages (build-electron.py lines
400-429). -/
def pipelineOrder : List Stage :=
  [Stage.buildTools, Stage.buildConfig, Stage.sync, Stage.redirectOrigin,
   Stage.build, Stage.verify, Stage.copyDist, Stage.packageSymbols,
   Stage.logZip, Stage.checksum]

/-- Sequential fail-fast execution: each stage runs only after every
earlier one succeeded; the first failing stage (uncaught exception from a
`check=True` subprocess) ends the run. Returns the trace of stages that
began executing and whether the process exits with status zero. -/
def runStages (fails : Stage → Bool) : List Stage → List Stage × Bool
  | [] => ([], true)
  | s :: rest =>
    if fails s then ([s], false)
    else
      let r := runStages fails rest
      (s :: r.1, r.2)

/-- `main` of build-electron.py as a fail-fast stage sequence. -/
def runPipeline (fails : Stage → Bool) : List Stage × Bool :=
  runStages fails pipelineOrder

/-- External answers consumed by `verifyElectronExecutable`: the outputs of
`e show outdir` and `e show exe`, and the outcomes of launching the
executable with `-v` and `-a` (`none` models a launch failure, i.e. a
raised `CalledProcessError`). -/
structure VerifyWorld where
  outdir : String
  exe : String
  versionOut : Option String
  abiOut : Option String

/-- Commands `verifyElectronExecutable` issues. -/
inductive VerifyCmd where
  | showOutdir
  | showExe
  | launch (exe flag : String)
deriving DecidableEq, Repr

/-- `verifyElectronExecutable` (build-electron.py lines 207-240): query the
outdir and the exe path, launch `exe -v`, then launch `exe -a`; a failed
launch raises (`Except.error ()`) and stops the sequence; on success the
function returns ONLY the outdir string (`return result`, line 240). -/
def verifyElectronExecutable (w : VerifyWorld) : List VerifyCmd × Except Unit String :=
  match w.versionOut with
  | none =>
    ([VerifyCmd.showOutdir, VerifyCmd.showExe, VerifyCmd.launch w.exe "-v"],
     Except.error ())
  | some _ =>
    match w.abiOut with
    | none =>
      ([VerifyCmd.showOutdir, VerifyCmd.showExe, VerifyCmd.launch w.exe "-v",
        VerifyCmd.launch w.exe "-a"], Except.error ())
    | some _ =>
      ([VerifyCmd.showOutdir, VerifyCmd.showExe, VerifyCmd.launch w.exe "-v",
        VerifyCmd.launch w.exe "-a"], Except.ok w.outdir)

/-- `descript_default_branch` (bootstrap-electron.py line 15). -/
def descript_default_branch : String :=
  "release/15.3.1/libuv-use-posix-spawn.0"

/-- Version-control commands `fetchAndPullGit` issues. -/
inductive GitCmd where
  | fetch
  | showBranch (branch : String)
  | checkout (branch : String)
deriving DecidableEq, Repr

/-- An empty prompt answer falls back to the default branch
(bootstrap-electron.py lines 249-251). -/
def normalizeBranchInput (i : String) : String :=
  if i.length = 0 then descript_default_branch else i

/-- Prompt loop of `fetchAndPullGit` (bootstrap-electron.py lines 247-257):
read an input, default it if empty, probe `git show-branch
remotes/origin/<branch>` (`probe b = true` means exit status zero); a
failing probe discards the input and loops. Returns the `show-branch`
trace and the accepted branch; `none` means the finite input script ran
out while the real program would still be prompting (no checkout yet). -/
def branchLoop (probe : String → Bool) : List String → List GitCmd × Option String
  | [] => ([], none)
  | i :: rest =>
    let branch := normalizeBranchInput i
    if probe branch then ([GitCmd.showBranch branch], some branch)
    else
      let r := branchLoop probe rest
      (GitCmd.showBranch branch :: r.1, r.2)

/-- `fetchAndPullGit` (bootstrap-electron.py lines 237-261): `git fetch`
once, then the validation loop, then `git checkout <branch>` for the
accepted branch. The Python function has no `return` statement, so its
value is `None`: the second component, the modelled return value, is
always `none`. -/
def fetchAndPullGit (probe : String → Bool) (inputs : List String) :
    List GitCmd × Option String :=
  let l := branchLoop probe inputs
  match l.2 with
  | some b => (GitCmd.fetch :: l.1 ++ [GitCmd.checkout b], none)
  | none => (GitCmd.fetch :: l.1, none)

/-- Reassociation of the `shutil.make_archive` suffix with a literal tail. -/
theorem append_symbols_zip (s : String) :
    s ++ "-symbols" ++ "." ++ "zip" = s ++ "-symbols.zip" := by
  rw [String.append_assoc, String.append_assoc]
  congr 1

/-- C5: for every version string V, platform string P and machine string M
(the architecture component being `getProcessorArch M`), the distribution
artifact is named `electron-v{V}-{P}-{A}.zip` and the symbols artifact
`electron-v{V}-{P}-{A}-symbols.zip`, byte for byte. -/
theorem artifact_names_match_templates (v p m : String) :
    distZipName v p m =
      "electron-v" ++ v ++ "-" ++ p ++ "-" ++ getProcessorArch m ++ ".zip" ∧
    symbolsZipName v p m =
      "electron-v" ++ v ++ "-" ++ p ++ "-" ++ getProcessorArch m ++ "-symbols.zip" := by
  refine ⟨rfl, ?_⟩
  show symbolsBaseName v p m ++ "." ++ "zip" = _
  rw [show symbolsBaseName v p m =
        "electron-v" ++ v ++ "-" ++ p ++ "-" ++ getProcessorArch m ++ "-symbols" from rfl,
      append_symbols_zip]

/-- C10: the architecture component is `platform.machine()` with `x86_64`
mapped to `x64` and every other machine string returned verbatim, and this
is the component every artifact name (distribution, symbols, log) embeds. -/
theorem processor_arch_mapping (v p m : String) :
    getProcessorArch "x86_64" = "x64" ∧
    getProcessorArch "arm64" = "arm64" ∧
    (m ≠ "x86_64" → getProcessorArch m = m) ∧
    distZipName v p m =
      "electron-v" ++ v ++ "-" ++ p ++ "-" ++ (if m = "x86_64" then "x64" else m) ++ ".zip" ∧
    symbolsZipName v p m =
      "electron-v" ++ v ++ "-" ++ p ++ "-" ++
        (if m = "x86_64" then "x64" else m) ++ "-symbols.zip" ∧
    logFileName v p m =
      "electron-v" ++ v ++ "-" ++ p ++ "-" ++ (if m = "x86_64" then "x64" else m) ++ "-log.txt" := by
  refine ⟨by decide, by decide, ?_, rfl, ?_, rfl⟩
  · intro hm
    simp [getProcessorArch, hm]
  · show symbolsBaseName v p m ++ "." ++ "zip" = _
    rw [show symbolsBaseName v p m =
          "electron-v" ++ v ++ "-" ++ p ++ "-" ++ (if m = "x86_64" then "x64" else m) ++ "-symbols"
        from rfl,
        append_symbols_zip]

/-- Witness for C10 at the machine string `arm64`. -/
theorem processor_arch_mapping_witness : getProcessorArch "arm64" = "arm64" :=
  (processor_arch_mapping "13.1.6" "darwin" "arm64").2.2.1 (by decide)

/-- C7: when the build stage fails, none of the distribution-copy,
symbol-packaging or checksum stages is ever begun and the process exit
status is nonzero. -/
theorem build_failure_skips_packaging (fails : Stage → Bool)
    (hb : fails Stage.build = true) :
    Stage.copyDist ∉ (runPipeline fails).1 ∧
    Stage.packageSymbols ∉ (runPipeline fails).1 ∧
    Stage.checksum ∉ (runPipeline fails).1 ∧
    (runPipeline fails).2 = false := by
  unfold runPipeline pipelineOrder
  by_cases h1 : fails Stage.buildTools <;>
    by_cases h2 : fails Stage.buildConfig <;>
      by_cases h3 : fails Stage.sync <;>
        by_cases h4 : fails Stage.redirectOrigin <;>
          simp [runStages, h1, h2, h3, h4, hb]

/-- Witness for C7: only the build stage fails. -/
theorem build_failure_skips_packaging_witness :
    Stage.copyDist ∉ (runPipeline (fun s => s == Stage.build)).1 ∧
    Stage.packageSymbols ∉ (runPipeline (fun s => s == Stage.build)).1 ∧
    Stage.checksum ∉ (runPipeline (fun s => s == Stage.build)).1 ∧
    (runPipeline (fun s => s == Stage.build)).2 = false :=
  build_failure_skips_packaging (fun s => s == Stage.build) (by decide)

/-- C9 counterexample: two worlds that differ only in the executable path
produce the SAME return value (both launches succeeding), so the returned
value contains the output directory only and cannot also carry the
executable path; the claim that both are returned is false of the code
(`verifyElectronExecutable` ends with `return result`, the outdir). -/
theorem verify_return_value_cex :
    (verifyElectronExecutable ⟨"outd", "exe1", some "v15.3.1", some "98"⟩).2 =
      (verifyElectronExecutable ⟨"outd", "exe2", some "v15.3.1", some "98"⟩).2 ∧
    ("exe1" : String) ≠ "exe2" :=
  ⟨rfl, by decide⟩

/-- C9 amended: the verification returns ONLY the output directory; on the
way it launches the executable exactly twice (`-v`, then `-a`), and a
failure of either launch is fatal (the raised error propagates). -/
theorem verify_executable_behaviour (w : VerifyWorld) :
    (w.versionOut ≠ none → w.abiOut ≠ none →
      verifyElectronExecutable w =
        ([VerifyCmd.showOutdir, VerifyCmd.showExe, VerifyCmd.launch w.exe "-v",
          VerifyCmd.launch w.exe "-a"], Except.ok w.outdir)) ∧
    (w.versionOut = none →
      verifyElectronExecutable w =
        ([VerifyCmd.showOutdir, VerifyCmd.showExe, VerifyCmd.launch w.exe "-v"],
         Except.error ())) ∧
    (w.abiOut = none → (verifyElectronExecutable w).2 = Except.error ()) := by
  obtain ⟨od, ex, vo, ao⟩ := w
  cases vo <;> cases ao <;> simp [verifyElectronExecutable]

/-- Witness for C9 (amended) on a world where both launches succeed. -/
theorem verify_executable_behaviour_witness :
    verifyElectronExecutable ⟨"od", "ex", some "v", some "a"⟩ =
      ([VerifyCmd.showOutdir, VerifyCmd.showExe, VerifyCmd.launch "ex" "-v",
        VerifyCmd.launch "ex" "-a"], Except.ok "od") :=
  (verify_executable_behaviour ⟨"od", "ex", some "v", some "a"⟩).1
    (by simp) (by simp)

/-- C6: the toolchain probe returns the path with no install when the
first presence check succeeds; otherwise it installs exactly once, accepts
a nonempty re-probe answer, and raises the ORIGINAL not-found error
(payload `0`, the first probe) when the toolchain is still absent; in
every case at most one install attempt happens. -/
theorem toolchain_probe_single_remediation (world : Nat → Option String) :
    (∀ p, world 0 = some p → getElectronBuildToolsPath world = (Except.ok p, 0)) ∧
    (∀ p, world 0 = none → world 1 = some p → 0 < p.length →
      getElectronBuildToolsPath world = (Except.ok p, 1)) ∧
    (world 0 = none → world 1 = none →
      getElectronBuildToolsPath world = (Except.error 0, 1)) ∧
    (getElectronBuildToolsPath world).2 ≤ 1 := by
  refine ⟨?_, ?_, ?_, ?_⟩
  · intro p hp
    simp [getElectronBuildToolsPath, hp]
  · intro p h0 h1 hlen
    simp [getElectronBuildToolsPath, getElectronBuildToolsPathNT, h0, h1, hlen.ne']
  · intro h0 h1
    simp [getElectronBuildToolsPath, getElectronBuildToolsPathNT, h0, h1]
  · unfold getElectronBuildToolsPath getElectronBuildToolsPathNT
    cases world 0 <;> cases world 1 <;> (simp; try (split <;> simp))

/-- Witness for C6 on the world where the toolchain never appears. -/
theorem toolchain_probe_single_remediation_witness :
    getElectronBuildToolsPath (fun _ => none) = (Except.error 0, 1) :=
  (toolchain_probe_single_remediation (fun _ => none)).2.2.1 rfl rfl

/-- The accepted branch of the prompt loop is the first entered (or
defaulted) input that passes the probe. -/
theorem branchLoop_res (probe : String → Bool) (inputs : List String) :
    (branchLoop probe inputs).2 = (inputs.map normalizeBranchInput).find? probe := by
  induction inputs with
  | nil => rfl
  | cons i rest ih =>
    by_cases h : probe (normalizeBranchInput i)
    · simp [branchLoop, h, List.find?_cons_of_pos]
    · simp [branchLoop, h, List.find?_cons_of_neg, ih]

/-- Every command the prompt loop itself issues is a `show-branch` probe. -/
theorem branchLoop_trace (probe : String → Bool) (inputs : List String) :
    ∀ c ∈ (branchLoop probe inputs).1, ∃ b, c = GitCmd.showBranch b := by
  induction inputs with
  | nil => intro c hc; simp [branchLoop] at hc
  | cons i rest ih =>
    intro c hc
    by_cases h : probe (normalizeBranchInput i)
    · simp [branchLoop, h] at hc
      exact ⟨normalizeBranchInput i, hc⟩
    · simp [branchLoop, h] at hc
      rcases hc with hc | hc
      · exact ⟨normalizeBranchInput i, hc⟩
      · exact ih c hc

/-- C8 counterexample: with every probe passing, two runs that check out
different branches have IDENTICAL return values (the Python function has
no `return` statement), so the checked-out branch name is not returned. -/
theorem checkout_branch_not_returned_cex :
    (fetchAndPullGit (fun _ => true) ["alpha"]).2 =
      (fetchAndPullGit (fun _ => true) ["beta"]).2 ∧
    GitCmd.checkout "alpha" ∈ (fetchAndPullGit (fun _ => true) ["alpha"]).1 ∧
    GitCmd.checkout "beta" ∈ (fetchAndPullGit (fun _ => true) ["beta"]).1 ∧
    ("alpha" : String) ≠ "beta" := by
  decide

/-- C8 amended: remote refs are fetched exactly once, before the prompt
loop; a branch whose `remotes/origin/<name>` probe fails is never checked
out; checkout happens exactly for the first entered (or defaulted) name
whose probe succeeds; the function itself returns no value. -/
theorem checkout_validated_branch (probe : String → Bool) (inputs : List String) :
    (fetchAndPullGit probe inputs).2 = none ∧
    (∃ rest, (fetchAndPullGit probe inputs).1 = GitCmd.fetch :: rest ∧
      GitCmd.fetch ∉ rest) ∧
    (∀ b, GitCmd.checkout b ∈ (fetchAndPullGit probe inputs).1 →
      probe b = true ∧ (inputs.map normalizeBranchInput).find? probe = some b) ∧
    (∀ b, (inputs.map normalizeBranchInput).find? probe = some b →
      ∃ mid, (fetchAndPullGit probe inputs).1 = GitCmd.fetch :: mid ++ [GitCmd.checkout b] ∧
        ∀ c ∈ mid, ∃ b', c = GitCmd.showBranch b') := by
  have htr := branchLoop_trace probe inputs
  have hres := branchLoop_res probe inputs
  refine ⟨?_, ?_, ?_, ?_⟩
  · cases h : (branchLoop probe inputs).2 <;> simp [fetchAndPullGit, h]
  · cases h : (branchLoop probe inputs).2 with
    | none =>
      refine ⟨(branchLoop probe inputs).1, by simp [fetchAndPullGit, h], fun hmem => ?_⟩
      obtain ⟨b, hb⟩ := htr _ hmem
      simp at hb
    | some b =>
      refine ⟨(branchLoop probe inputs).1 ++ [GitCmd.checkout b],
        by simp [fetchAndPullGit, h], fun hmem => ?_⟩
      rcases List.mem_append.mp hmem with hm | hm
      · obtain ⟨b', hb'⟩ := htr _ hm
        simp at hb'
      · simp at hm
  · intro b hmem
    simp only [fetchAndPullGit] at hmem
    cases h : (branchLoop probe inputs).2 with
    | none =>
      rw [h] at hmem
      simp only [List.mem_cons] at hmem
      rcases hmem with hm | hm
      · simp at hm
      · obtain ⟨b', hb'⟩ := htr _ hm
        simp at hb'
    | some b' =>
      rw [h] at hmem
      simp only [List.mem_cons, List.mem_append, List.mem_singleton] at hmem
      rcases hmem with (hm | hm) | hm
      · simp at hm
      · obtain ⟨b'', hb''⟩ := htr _ hm
        simp at hb''
      · have hbb : b = b' := by
          simpa [GitCmd.checkout.injEq] using hm
        subst hbb
        have hfind : (inputs.map normalizeBranchInput).find? probe = some b :=
          hres.symm.trans h
        exact ⟨List.find?_some hfind, hfind⟩
  · intro b hfind
    have hl2 : (branchLoop probe inputs).2 = some b := hres.trans hfind
    refine ⟨(branchLoop probe inputs).1, ?_, fun c hc => htr c hc⟩
    simp only [fetchAndPullGit]
    rw [hl2]

/-- Witness for C8: an empty answer (defaulted, probe fails) followed by
`dev`, which resolves and is checked out. -/
theorem checkout_validated_branch_witness :
    ∃ mid, (fetchAndPullGit (fun b => b == "dev") ["", "dev"]).1 =
      GitCmd.fetch :: mid ++ [GitCmd.checkout "dev"] ∧
      ∀ c ∈ mid, ∃ b', c = GitCmd.showBranch b' :=
  (checkout_validated_branch (fun b => b == "dev") ["", "dev"]).2.2.2 "dev" (by decide)

/-- `tuple.index` raises when no component matches. -/
theorem tupleIndex_eq_none (t : String) (l : List String) (h : ∀ s ∈ l, s ≠ t) :
    tupleIndex t l = none := by
  induction l with
  | nil => rfl
  | cons s rest ih =>
    simp only [tupleIndex]
    rw [if_neg (h s (by simp)), ih (fun x hx => h x (by simp [hx]))]
    rfl

/-- `tuple.index` finds the FIRST occurrence: the truncated list ends in
the target and no earlier component equals it. -/
theorem tupleIndex_first (t : String) (l : List String) (h : t ∈ l) :
    ∃ i, tupleIndex t l = some i ∧ (l.take (i + 1)).getLast? = some t ∧
      ∀ s ∈ l.take i, s ≠ t := by
  induction l with
  | nil => simp at h
  | cons s rest ih =>
    by_cases hs : s = t
    · refine ⟨0, by simp [tupleIndex, hs], by simp [hs], by simp⟩
    · have ht : t ∈ rest := by
        rcases List.mem_cons.mp h with hm | hm
        · exact absurd hm.symm hs
        · exact hm
      obtain ⟨i, hi, hlast, hearlier⟩ := ih ht
      refine ⟨i + 1, by simp [tupleIndex, hs, hi], ?_, ?_⟩
      · rw [List.take_succ_cons, List.getLast?_cons, hlast]
        rfl
      · intro x hx
        rw [List.take_succ_cons] at hx
        rcases List.mem_cons.mp hx with hm | hm
        · rw [hm]; exact hs
        · exact hearlier x hm

/-- C1 counterexample: with two ancestors named `Foo.app`, the code
truncates at the FIRST (outermost) one, not at the nearest ancestor the
spec describes. -/
theorem bundle_root_nearest_cex :
    bundleRootFromExe ["/", "Foo.app", "sub", "Foo.app", "Contents", "MacOS", "Foo"] =
      Except.ok ["/", "Foo.app"] ∧
    specNearestEnclosingAppRoot ["/", "Foo.app", "sub", "Foo.app", "Contents", "MacOS", "Foo"] =
      Except.ok ["/", "Foo.app", "sub", "Foo.app"] ∧
    (["/", "Foo.app"] : List String) ≠ ["/", "Foo.app", "sub", "Foo.app"] :=
  ⟨rfl, rfl, by decide⟩

/-- C1 amended: the bundle root is the shortest prefix of the executable's
components ending in a component named `<exeStem>.app` (the OUTERMOST
match), and when no component matches, the `ValueError` is re-raised
immediately: there is no fallback scanning root. -/
theorem bundle_root_outermost (parts : List String) :
    ((∀ s ∈ parts, s ≠ pathStem parts ++ ".app") →
      bundleRootFromExe parts = Except.error ()) ∧
    ((pathStem parts ++ ".app") ∈ parts →
      ∃ i, bundleRootFromExe parts = Except.ok (parts.take (i + 1)) ∧
        (parts.take (i + 1)).getLast? = some (pathStem parts ++ ".app") ∧
        (∀ s ∈ parts.take i, s ≠ pathStem parts ++ ".app") ∧
        parts.take (i + 1) ++ parts.drop (i + 1) = parts) := by
  constructor
  · intro h
    simp only [bundleRootFromExe]
    rw [tupleIndex_eq_none _ _ h]
  · intro h
    obtain ⟨i, hi, hlast, hearlier⟩ := tupleIndex_first _ _ h
    refine ⟨i, ?_, hlast, hearlier, List.take_append_drop _ _⟩
    simp only [bundleRootFromExe]
    rw [hi]

/-- Witness for C1 (amended) on the double-`Foo.app` path. -/
theorem bundle_root_outermost_witness :
    ∃ i, bundleRootFromExe ["/", "Foo", "sub", "Foo.app", "MacOS", "Foo"] =
      Except.ok ((["/", "Foo", "sub", "Foo.app", "MacOS", "Foo"] : List String).take (i + 1)) ∧
      ((["/", "Foo", "sub", "Foo.app", "MacOS", "Foo"] : List String).take (i + 1)).getLast? =
        some (pathStem ["/", "Foo", "sub", "Foo.app", "MacOS", "Foo"] ++ ".app") ∧
      (∀ s ∈ (["/", "Foo", "sub", "Foo.app", "MacOS", "Foo"] : List String).take i,
        s ≠ pathStem ["/", "Foo", "sub", "Foo.app", "MacOS", "Foo"] ++ ".app") ∧
      (["/", "Foo", "sub", "Foo.app", "MacOS", "Foo"] : List String).take (i + 1) ++
        (["/", "Foo", "sub", "Foo.app", "MacOS", "Foo"] : List String).drop (i + 1) =
        ["/", "Foo", "sub", "Foo.app", "MacOS", "Foo"] :=
  (bundle_root_outermost ["/", "Foo", "sub", "Foo.app", "MacOS", "Foo"]).2 (by decide)

/-- Closed characterization of `symbolNameFromFile`: the bundle container
types are tried in the fixed order app, framework, bundle, and the
basename is the fallback; `.dSYM` is always appended. -/
theorem symbolNameFromFile_eq (parts : List String) :
    symbolNameFromFile parts =
      (if (pathStem parts ++ ".app") ∈ parts then pathStem parts ++ ".app"
       else if (pathStem parts ++ ".framework") ∈ parts then pathStem parts ++ ".framework"
       else if (pathStem parts ++ ".bundle") ∈ parts then pathStem parts ++ ".bundle"
       else pathName parts) ++ ".dSYM" := by
  show symbolNameFromFile parts =
      (if (stemOfName (pathName parts) ++ ".app") ∈ parts then
        stemOfName (pathName parts) ++ ".app"
       else if (stemOfName (pathName parts) ++ ".framework") ∈ parts then
        stemOfName (pathName parts) ++ ".framework"
       else if (stemOfName (pathName parts) ++ ".bundle") ∈ parts then
        stemOfName (pathName parts) ++ ".bundle"
       else pathName parts) ++ ".dSYM"
  have ha : stemOfName (pathName parts) ++ "." ++ "app" =
      stemOfName (pathName parts) ++ ".app" :=
    String.append_assoc _ _ _
  have hf : stemOfName (pathName parts) ++ "." ++ "framework" =
      stemOfName (pathName parts) ++ ".framework" :=
    String.append_assoc _ _ _
  have hb : stemOfName (pathName parts) ++ "." ++ "bundle" =
      stemOfName (pathName parts) ++ ".bundle" :=
    String.append_assoc _ _ _
  simp only [symbolNameFromFile, knownBundles, List.findSome?_cons, List.findSome?_nil]
  rw [ha, hf, hb]
  by_cases h1 : (stemOfName (pathName parts) ++ ".app") ∈ parts <;>
    by_cases h2 : (stemOfName (pathName parts) ++ ".framework") ∈ parts <;>
      by_cases h3 : (stemOfName (pathName parts) ++ ".bundle") ∈ parts <;>
        simp [h1, h2, h3]

/-- C2: the derived symbol name checks the container types app, framework,
bundle in that priority order, takes the matching `<stem>.<type>` path
segment as the name, falls back to the basename, and always appends
`.dSYM`; `.../Foo.app/Contents/MacOS/Foo` gives `Foo.app.dSYM`,
`/usr/local/bin/helper` gives `helper.dSYM`, and no input is fatal. -/
theorem symbol_name_priority (parts : List String) :
    symbolNameFromFile ["/", "x", "Foo.app", "Contents", "MacOS", "Foo"] = "Foo.app.dSYM" ∧
    symbolNameFromFile ["/", "usr", "local", "bin", "helper"] = "helper.dSYM" ∧
    (∃ base, symbolNameFromFile parts = base ++ ".dSYM") ∧
    ((pathStem parts ++ ".app") ∈ parts →
      symbolNameFromFile parts = pathStem parts ++ ".app" ++ ".dSYM") ∧
    ((pathStem parts ++ ".app") ∉ parts → (pathStem parts ++ ".framework") ∈ parts →
      symbolNameFromFile parts = pathStem parts ++ ".framework" ++ ".dSYM") ∧
    ((pathStem parts ++ ".app") ∉ parts → (pathStem parts ++ ".framework") ∉ parts →
      (pathStem parts ++ ".bundle") ∈ parts →
      symbolNameFromFile parts = pathStem parts ++ ".bundle" ++ ".dSYM") ∧
    ((pathStem parts ++ ".app") ∉ parts → (pathStem parts ++ ".framework") ∉ parts →
      (pathStem parts ++ ".bundle") ∉ parts →
      symbolNameFromFile parts = pathName parts ++ ".dSYM") := by
  refine ⟨by decide, by decide, ⟨_, symbolNameFromFile_eq parts⟩, ?_, ?_, ?_, ?_⟩
  · intro h1
    rw [symbolNameFromFile_eq, if_pos h1]
  · intro h1 h2
    rw [symbolNameFromFile_eq, if_neg h1, if_pos h2]
  · intro h1 h2 h3
    rw [symbolNameFromFile_eq, if_neg h1, if_neg h2, if_pos h3]
  · intro h1 h2 h3
    rw [symbolNameFromFile_eq, if_neg h1, if_neg h2, if_neg h3]

/-- Witness for C2 on a binary inside `Bar.app`. -/
theorem symbol_name_priority_witness :
    symbolNameFromFile ["/", "a", "Bar.app", "Contents", "Bar"] =
      pathStem ["/", "a", "Bar.app", "Contents", "Bar"] ++ ".app" ++ ".dSYM" :=
  (symbol_name_priority ["/", "a", "Bar.app", "Contents", "Bar"]).2.2.2.1 (by decide)

/-- C3 counterexample: two DISTINCT files (same basename and equal content
in different subdirectories of the output folder) produce the same
manifest line, so the manifest has one line, not N = 2: set semantics
deduplicates by (hash, marker-name), not by file. -/
theorem checksum_manifest_cex :
    ([("/out/a", "x"), ("/out/b", "x")] : List (String × String)).Nodup ∧
    (generateChecksum
      (fun _ => "0a88d3f97f356c6a42449fd548f9b586f565899144849019014e36c7683b745e")
      [("/out/a", "x"), ("/out/b", "x")]).length = 1 := by
  constructor
  · decide
  · rfl

/-- C3 amended: the manifest holds exactly one line per distinct
(hash, marker-name) pair — duplicate-free, its lines exactly the lines of
the walked files, at most one line per file visit, and a repeated visit of
an already-visited file leaves the manifest unchanged. -/
theorem checksum_manifest_dedup (h : String → String) (files : List (String × String)) :
    (generateChecksum h files).Nodup ∧
    (∀ l, l ∈ generateChecksum h files ↔ ∃ f ∈ files, l = checksumLine h f.1 f.2) ∧
    (generateChecksum h files).length ≤ files.length ∧
    (∀ f ∈ files, generateChecksum h (f :: files) = generateChecksum h files) := by
  refine ⟨List.nodup_dedup _, ?_, ?_, ?_⟩
  · intro l
    simp only [generateChecksum, List.mem_dedup, List.mem_map]
    constructor
    · rintro ⟨f, hf, hl⟩
      exact ⟨f, hf, hl.symm⟩
    · rintro ⟨f, hf, hl⟩
      exact ⟨f, hf, hl.symm⟩
  · have hsub := (List.dedup_sublist (files.map (fun f => checksumLine h f.1 f.2))).length_le
    simpa [generateChecksum] using hsub
  · intro f hf
    simp only [generateChecksum, List.map_cons]
    exact List.dedup_cons_of_mem (List.mem_map_of_mem _ hf)

/-- Witness for C3 (amended): revisiting the single file changes nothing. -/
theorem checksum_manifest_dedup_witness :
    generateChecksum (fun _ => "e3b0") (("/o", "a") :: [("/o", "a")]) =
      generateChecksum (fun _ => "e3b0") [("/o", "a")] :=
  (checksum_manifest_dedup (fun _ => "e3b0") [("/o", "a")]).2.2.2 ("/o", "a") (by decide)

/-- Unfolding step for `List.lookup` on a cons cell with string keys. -/
theorem lookup_cons (a pk : String) (pv : List String)
    (rest : List (String × List String)) :
    List.lookup a ((pk, pv) :: rest) = if a = pk then some pv else List.lookup a rest := by
  by_cases h : (a == pk) = true
  · have h' : a = pk := by simpa using h
    simp [List.lookup, h, h']
  · have h' : ¬a = pk := by simpa using h
    simp [List.lookup, h, h']

/-- Overwriting an existing staging entry binds its key to the new value. -/
theorem lookup_map_overwrite (k : String) (v : List String) :
    ∀ st : List (String × List String), st.any (fun p => p.1 = k) = true →
      List.lookup k (st.map (fun p => if p.1 = k then (k, v) else p)) = some v := by
  intro st
  induction st with
  | nil => intro hany; simp at hany
  | cons p rest ih =>
    intro hany
    obtain ⟨pk, pv⟩ := p
    simp only [List.map_cons]
    by_cases hp : pk = k
    · rw [show (if (pk, pv).1 = k then (k, v) else (pk, pv)) = (k, v) from by simp [hp],
        lookup_cons, if_pos rfl]
    · rw [show (if (pk, pv).1 = k then (k, v) else (pk, pv)) = (pk, pv) from by simp [hp],
        lookup_cons, if_neg (fun h => hp h.symm)]
      exact ih (by simpa [hp] using hany)

/-- Appending a fresh staging entry binds its key to the new value when
the key is not yet staged. -/
theorem lookup_append_fresh (k : String) (v : List String) :
    ∀ st : List (String × List String),
      List.lookup k (st ++ [(k, v)]) = optOr (List.lookup k st) (some v) := by
  intro st
  induction st with
  | nil =>
    rw [List.nil_append, lookup_cons, if_pos rfl]
    rfl
  | cons p rest ih =>
    obtain ⟨pk, pv⟩ := p
    rw [List.cons_append, lookup_cons, lookup_cons]
    by_cases hp : k = pk
    · rw [if_pos hp, if_pos hp]
      rfl
    · rw [if_neg hp, if_neg hp]
      exact ih

/-- Overwriting the entry of one key leaves every other key's entry
untouched. -/
theorem lookup_map_ne (k k' : String) (v : List String) (hk : k' ≠ k) :
    ∀ st : List (String × List String),
      List.lookup k' (st.map (fun p => if p.1 = k then (k, v) else p)) =
        List.lookup k' st := by
  intro st
  induction st with
  | nil => rfl
  | cons p rest ih =>
    obtain ⟨pk, pv⟩ := p
    simp only [List.map_cons]
    by_cases hp : pk = k
    · rw [show (if (pk, pv).1 = k then (k, v) else (pk, pv)) = (k, v) from by simp [hp],
        lookup_cons, lookup_cons, if_neg hk, if_neg (fun h => hk (h.trans hp))]
      exact ih
    · rw [show (if (pk, pv).1 = k then (k, v) else (pk, pv)) = (pk, pv) from by simp [hp],
        lookup_cons, lookup_cons]
      by_cases hq : k' = pk
      · rw [if_pos hq, if_pos hq]
      · rw [if_neg hq, if_neg hq]
        exact ih

/-- Appending an entry for one key leaves every other key's entry
untouched. -/
theorem lookup_append_ne (k k' : String) (v : List String) (hk : k' ≠ k) :
    ∀ st : List (String × List String),
      List.lookup k' (st ++ [(k, v)]) = List.lookup k' st := by
  intro st
  induction st with
  | nil =>
    rw [List.nil_append, lookup_cons, if_neg hk]
  | cons p rest ih =>
    obtain ⟨pk, pv⟩ := p
    rw [List.cons_append, lookup_cons, lookup_cons]
    by_cases hq : k' = pk
    · rw [if_pos hq, if_pos hq]
    · rw [if_neg hq, if_neg hq]
      exact ih

/-- Keys that are never staged look up to nothing. -/
theorem lookup_eq_none_of_not_any (k : String) :
    ∀ st : List (String × List String), ¬st.any (fun p => p.1 = k) = true →
      List.lookup k st = none := by
  intro st
  induction st with
  | nil => intro _; rfl
  | cons p rest ih =>
    intro hany
    obtain ⟨pk, pv⟩ := p
    have hp : ¬pk = k := fun h => hany (by simp [h])
    rw [lookup_cons, if_neg (fun h => hp h.symm)]
    exact ih (fun h => hany (by simp [h]))

/-- A `dsymutil` write leaves every other staged name untouched. -/
theorem lookup_writeSymbol_ne (st : List (String × List String)) (k k' : String)
    (v : List String) (hk : k' ≠ k) :
    List.lookup k' (writeSymbol st k v) = List.lookup k' st := by
  unfold writeSymbol
  split
  · exact lookup_map_ne k k' v hk st
  · exact lookup_append_ne k k' v hk st

/-- A `dsymutil` write binds the derived name to the newly extracted
image. -/
theorem lookup_writeSymbol_self (st : List (String × List String)) (k : String)
    (v : List String) :
    List.lookup k (writeSymbol st k v) = some v := by
  unfold writeSymbol
  split
  case isTrue hany => exact lookup_map_overwrite k v st hany
  case isFalse hany =>
    rw [lookup_append_fresh, lookup_eq_none_of_not_any k st hany]
    rfl

/-- Overwriting preserves the staged key list. -/
theorem keys_map_write (k : String) (v : List String) :
    ∀ st : List (String × List String),
      (st.map (fun p => if p.1 = k then (k, v) else p)).map Prod.fst = st.map Prod.fst := by
  intro st
  induction st with
  | nil => rfl
  | cons p rest ih =>
    obtain ⟨pk, pv⟩ := p
    by_cases hp : pk = k
    · simp [hp, ih]
    · simp [hp, ih]

/-- A `dsymutil` write keeps the staged names duplicate-free. -/
theorem nodup_keys_writeSymbol (st : List (String × List String)) (k : String)
    (v : List String) (hnd : (st.map Prod.fst).Nodup) :
    ((writeSymbol st k v).map Prod.fst).Nodup := by
  unfold writeSymbol
  split
  case isTrue hany =>
    rw [keys_map_write]
    exact hnd
  case isFalse hany =>
    rw [List.map_append]
    refine List.nodup_append.mpr ⟨hnd, by simp, ?_⟩
    intro a ha hb
    simp only [List.map_cons, List.map_nil, List.mem_singleton] at hb
    subst hb
    obtain ⟨p, hp, hpk⟩ := List.mem_map.mp ha
    exact hany (List.any_eq_true.mpr ⟨p, hp, by simp [hpk]⟩)

/-- The staging fold binds a name to the LAST image in processing order
that derives it, and falls back to the initial staging state. -/
theorem lookup_stage_foldl (n : String) :
    ∀ (l : List (List String)) (st : List (String × List String)),
      List.lookup n (l.foldl (fun st pe => writeSymbol st (symbolNameFromFile pe) pe) st) =
        optOr ((l.filter (fun pe => symbolNameFromFile pe == n)).getLast?)
          (List.lookup n st) := by
  intro l
  induction l with
  | nil => intro st; rfl
  | cons pe rest ih =>
    intro st
    simp only [List.foldl_cons, List.filter_cons]
    by_cases hpe : (symbolNameFromFile pe == n) = true
    · rw [if_pos hpe, ih]
      have hn : symbolNameFromFile pe = n := by simpa using hpe
      rw [hn, lookup_writeSymbol_self]
      rw [List.getLast?_cons]
      cases hlast : (rest.filter (fun pe => symbolNameFromFile pe == n)).getLast? <;>
        simp [optOr, hlast]
    · rw [if_neg hpe, ih]
      have hn : n ≠ symbolNameFromFile pe := by
        intro hn
        exact hpe (by simp [hn])
      rw [lookup_writeSymbol_ne st _ _ pe hn]

/-- The staging fold keeps the staged names duplicate-free. -/
theorem stage_keys_nodup_aux :
    ∀ (l : List (List String)) (st : List (String × List String)),
      (st.map Prod.fst).Nodup →
      ((l.foldl (fun st pe => writeSymbol st (symbolNameFromFile pe) pe) st).map
        Prod.fst).Nodup := by
  intro l
  induction l with
  | nil => exact fun st h => h
  | cons pe rest ih =>
    intro st hnd
    simp only [List.foldl_cons]
    exact ih _ (nodup_keys_writeSymbol st _ pe hnd)

/-- C4: the staging directory holds exactly one output per derived symbol
name; the image bound to a name is the LAST one in the case-insensitive
sorted processing order that derives it (a later image silently overwrites
an earlier extraction, no collision error — the fold is total); concretely
`/A/Foo` and `/B/Foo` collapse to one `Foo.dSYM` owned by `/B/Foo`. -/
theorem symbol_collision_last_write (pes : List (List String)) (n : String) :
    ((stageSymbols pes).map Prod.fst).Nodup ∧
    List.lookup n (stageSymbols pes) =
      ((sortedByLowerPath pes).filter (fun pe => symbolNameFromFile pe == n)).getLast? ∧
    stageSymbols [["/", "B", "Foo"], ["/", "A", "Foo"]] = [("Foo.dSYM", ["/", "B", "Foo"])] := by
  refine ⟨?_, ?_, by decide⟩
  · unfold stageSymbols
    exact stage_keys_nodup_aux _ _ (by simp)
  · unfold stageSymbols
    rw [lookup_stage_foldl]
    cases hlast : ((sortedByLowerPath pes).filter
        (fun pe => symbolNameFromFile pe == n)).getLast? <;>
      simp [optOr, hlast, List.lookup]

end BuildElectron
